import Mathlib

/-!
Verification of the family-tree manager's core logic.

The development shallowly embeds the server handlers
(`createRelationship`, `getPerson`, `updatePerson`, `deletePerson`,
`deleteRelationship`, `getFamilyTree`) and the client-side tree
assembler (`treeStructure` / `buildTree` in the FamilyTree component).

Modelling conventions:
* Calendar dates and timestamps are natural numbers.
* The Postgres tables are lists of records in insertion order; `id` is a
  serial primary key, so people ids are assumed pairwise distinct where a
  statement needs it.
* `throw new Error(msg)` is `Except.error`; for `createRelationship` the
  five distinct throw sites are the constructors of `RelFailure`, and
  `RelFailure.message` recovers the exact message strings of the code.
* The client tree assembler recurses without any termination guard; it is
  embedded with an explicit recursion-depth budget (`fuel`), where `none`
  means the budget was exceeded.  The JS recursion terminates on an input
  exactly when some finite budget suffices on that input.
-/

namespace FamilyTree

/-- A row of the `people` table (src/server/src/db/schema.ts). -/
structure Person where
  id : Nat
  full_name : String
  birth_date : Option Nat
  death_date : Option Nat
  photo_url : Option String
  created_at : Nat
  updated_at : Nat
deriving DecidableEq, Repr

/-- A row of the `relationships` table: a directed parent-to-child edge. -/
structure Relationship where
  id : Nat
  parent_id : Nat
  child_id : Nat
  created_at : Nat
deriving DecidableEq, Repr

/-- A person annotated with resolved parent and child records
(`personWithRelationshipsSchema` in src/server/src/schema.ts). -/
structure PersonWithRelationships where
  id : Nat
  full_name : String
  birth_date : Option Nat
  death_date : Option Nat
  photo_url : Option String
  created_at : Nat
  updated_at : Nat
  parents : List Person
  children : List Person
deriving DecidableEq, Repr

/-- Input of `createRelationship`. -/
structure CreateRelationshipInput where
  parent_id : Nat
  child_id : Nat
deriving DecidableEq, Repr

/-- Input of `updatePerson`: `none` is an absent (undefined) field, a
nullable field is set to null by `some none`. -/
structure UpdatePersonInput where
  id : Nat
  full_name : Option String
  birth_date : Option (Option Nat)
  death_date : Option (Option Nat)
  photo_url : Option (Option String)
deriving DecidableEq, Repr

/-- The five distinct throw sites of `createRelationship`
(src/server/src/handlers/create_person.ts, createRelationship). -/
inductive RelFailure where
  | selfRelationship : RelFailure
  | parentNotFound : Nat → RelFailure
  | childNotFound : Nat → RelFailure
  | duplicateRelationship : RelFailure
  | circularRelationship : RelFailure
deriving DecidableEq, Repr

/-- The exact error message each throw site of `createRelationship` uses. -/
def RelFailure.message : RelFailure → String
  | .selfRelationship => "A person cannot be their own parent"
  | .parentNotFound pid => "Parent with ID " ++ toString pid ++ " does not exist"
  | .childNotFound cid => "Child with ID " ++ toString cid ++ " does not exist"
  | .duplicateRelationship => "Relationship already exists between these people"
  | .circularRelationship => "Cannot create circular parent-child relationship"

/-- `createRelationship` (src/server/src/handlers/create_person.ts lines
133-204): self check, parent existence, child existence, duplicate edge,
reversed edge, then insert with the next serial id.  `nextId` is the
serial counter of the `relationships` table and `now` the insertion
timestamp supplied by the database. -/
def createRelationship (people : List Person) (rels : List Relationship)
    (nextId now : Nat) (input : CreateRelationshipInput) :
    Except RelFailure (Relationship × List Relationship) :=
  if input.parent_id == input.child_id then
    .error RelFailure.selfRelationship
  else
    let parentRows := people.filter (fun p => p.id == input.parent_id)
    let childRows := people.filter (fun p => p.id == input.child_id)
    if parentRows.length == 0 then
      .error (RelFailure.parentNotFound input.parent_id)
    else if childRows.length == 0 then
      .error (RelFailure.childNotFound input.child_id)
    else
      let existing := rels.filter
        (fun r => r.parent_id == input.parent_id && r.child_id == input.child_id)
      if 0 < existing.length then
        .error RelFailure.duplicateRelationship
      else
        let circular := rels.filter
          (fun r => r.parent_id == input.child_id && r.child_id == input.parent_id)
        if 0 < circular.length then
          .error RelFailure.circularRelationship
        else
          let newRel : Relationship := ⟨nextId, input.parent_id, input.child_id, now⟩
          .ok (newRel, rels ++ [newRel])

/-- `getPerson` (src/server/src/handlers/create_person.ts lines 47-128):
fetch the person by id, then resolve parents via the join
`people ⋈ relationships on people.id = parent_id where child_id = input.id`
and children symmetrically.  The join drops edges whose other endpoint is
missing, which `filterMap` with `find?` reproduces (ids are unique, being
a primary key). -/
def getPerson (people : List Person) (rels : List Relationship) (id : Nat) :
    Option PersonWithRelationships :=
  match people.filter (fun p => p.id == id) with
  | [] => none
  | person :: _ =>
    let parents := (rels.filter (fun r => r.child_id == id)).filterMap
      (fun r => people.find? (fun p => p.id == r.parent_id))
    let children := (rels.filter (fun r => r.parent_id == id)).filterMap
      (fun r => people.find? (fun p => p.id == r.child_id))
    some ⟨person.id, person.full_name, person.birth_date, person.death_date,
      person.photo_url, person.created_at, person.updated_at, parents, children⟩

/-- The record produced by `updatePerson`'s UPDATE statement: provided
fields overwrite, absent fields keep their prior value, `updated_at` is
set to the current time. -/
def applyUpdate (input : UpdatePersonInput) (now : Nat) (p : Person) : Person :=
  { p with
    full_name := input.full_name.getD p.full_name
    birth_date := input.birth_date.getD p.birth_date
    death_date := input.death_date.getD p.death_date
    photo_url := input.photo_url.getD p.photo_url
    updated_at := now }

/-- `updatePerson` (src/server/src/handlers/get_people.ts lines 24-66):
existence check, then UPDATE of the row with that id, returning the
updated row. -/
def updatePerson (people : List Person) (now : Nat) (input : UpdatePersonInput) :
    Except String (Person × List Person) :=
  match people.filter (fun p => p.id == input.id) with
  | [] => .error ("Person with id " ++ toString input.id ++ " not found")
  | p :: _ =>
    .ok (applyUpdate input now p,
      people.map (fun q => if q.id == input.id then applyUpdate input now q else q))

/-- `deletePerson` (src/server/src/handlers/delete_person.ts): existence
check, delete the row; the schema's `onDelete: 'cascade'` on both foreign
keys of `relationships` (src/server/src/db/schema.ts lines 16-21) removes
every edge referencing the person. -/
def deletePerson (people : List Person) (rels : List Relationship) (id : Nat) :
    Except String (Bool × List Person × List Relationship) :=
  match people.filter (fun p => p.id == id) with
  | [] => .error ("Person with id " ++ toString id ++ " not found")
  | _ :: _ =>
    .ok (true,
      people.filter (fun p => !(p.id == id)),
      rels.filter (fun r => !(r.parent_id == id) && !(r.child_id == id)))

/-- `deleteRelationship` (src/server/src/handlers/delete_relationship.ts):
DELETE all rows matching the pair; `success` is whether the affected row
count was positive.  No branch raises an error. -/
def deleteRelationship (rels : List Relationship) (parent_id child_id : Nat) :
    Bool × List Relationship :=
  let matching := rels.filter
    (fun r => r.parent_id == parent_id && r.child_id == child_id)
  (decide (0 < matching.length),
    rels.filter (fun r => !(r.parent_id == parent_id && r.child_id == child_id)))

/-- `allPeople.find(p => p.id === rel.child_id)` with the throw of
`getFamilyTree` when the lookup fails. -/
def resolveChild (people : List Person) (r : Relationship) : Except String Person :=
  match people.find? (fun p => p.id == r.child_id) with
  | some c => .ok c
  | none => .error ("Child with id " ++ toString r.child_id ++ " not found")

/-- `allPeople.find(p => p.id === rel.parent_id)` with the throw of
`getFamilyTree` when the lookup fails. -/
def resolveParent (people : List Person) (r : Relationship) : Except String Person :=
  match people.find? (fun p => p.id == r.parent_id) with
  | some c => .ok c
  | none => .error ("Parent with id " ++ toString r.parent_id ++ " not found")

/-- A JavaScript `Array.map` whose body may throw: the first failure
aborts the whole map. -/
def exceptMap (f : α → Except String β) : List α → Except String (List β)
  | [] => .ok []
  | a :: rest =>
    match f a with
    | .error e => .error e
    | .ok b =>
      match exceptMap f rest with
      | .error e => .error e
      | .ok bs => .ok (b :: bs)

/-- One element of `getFamilyTree`'s result: the person together with the
resolved children (computed first, as in the code) and parents. -/
def personEntry (people : List Person) (rels : List Relationship) (person : Person) :
    Except String PersonWithRelationships :=
  let childRels := rels.filter (fun r => r.parent_id == person.id)
  let parentRels := rels.filter (fun r => r.child_id == person.id)
  match exceptMap (resolveChild people) childRels with
  | .error e => .error e
  | .ok children =>
    match exceptMap (resolveParent people) parentRels with
    | .error e => .error e
    | .ok parents =>
      .ok ⟨person.id, person.full_name, person.birth_date, person.death_date,
        person.photo_url, person.created_at, person.updated_at, parents, children⟩

/-- `getFamilyTree` (src/server/src/handlers/create_person.ts lines
209-259): map every person to its annotated entry, throwing if a
processed edge's endpoint is missing. -/
def getFamilyTree (people : List Person) (rels : List Relationship) :
    Except String (List PersonWithRelationships) :=
  exceptMap (personEntry people rels) people

/-- A node of the client's nested display forest (`TreeNode` in the
FamilyTree component): the person, the child subtrees, and the depth
level. -/
inductive TreeNode where
  | mk : PersonWithRelationships → List TreeNode → Nat → TreeNode

/-- The `person` field of a `TreeNode`. -/
def TreeNode.person : TreeNode → PersonWithRelationships
  | .mk p _ _ => p

/-- The `children` field of a `TreeNode`. -/
def TreeNode.children : TreeNode → List TreeNode
  | .mk _ c _ => c

/-- The `level` field of a `TreeNode`. -/
def TreeNode.level : TreeNode → Nat
  | .mk _ _ l => l

/-- The body of `person.children.map(...).filter(Boolean)` inside
`buildTree`: look each child up in `data`; a failed lookup is dropped
(the `filter(Boolean)`), and `f` is the recursive call at the next level.
`none` propagates a recursive call that exceeded its depth budget. -/
def buildChildrenAux (f : PersonWithRelationships → Option TreeNode)
    (data : List PersonWithRelationships) : List Person → Option (List TreeNode)
  | [] => some []
  | c :: rest =>
    match data.find? (fun p => p.id == c.id) with
    | none => buildChildrenAux f data rest
    | some pc =>
      match f pc with
      | none => none
      | some t =>
        match buildChildrenAux f data rest with
        | none => none
        | some ts => some (t :: ts)

/-- `buildTree` of the FamilyTree component (src/unnamed/part_000 lines
29-40), with an explicit recursion-depth budget: the JS function has no
guard against revisiting a person on the current path, so its call tree
on a given input is finite exactly when some budget suffices. -/
def buildTree : Nat → List PersonWithRelationships → PersonWithRelationships →
    Nat → Option TreeNode
  | 0, _, _, _ => none
  | fuel + 1, data, person, level =>
    match buildChildrenAux (fun q => buildTree fuel data q (level + 1))
        data person.children with
    | none => none
    | some ts => some (.mk person ts level)

/-- `rootPeople` of the FamilyTree component: the entries with no
parents. -/
def rootPeople (data : List PersonWithRelationships) : List PersonWithRelationships :=
  data.filter (fun person => person.parents.length == 0)

/-- A JavaScript `Array.map` over a possibly non-terminating body, in the
fuel model: `none` as soon as one element exceeds the budget. -/
def optionMap (f : α → Option β) : List α → Option (List β)
  | [] => some []
  | a :: rest =>
    match f a with
    | none => none
    | some b =>
      match optionMap f rest with
      | none => none
      | some bs => some (b :: bs)

/-- `treeStructure` of the FamilyTree component (src/unnamed/part_000
lines 20-43): empty data gives the empty forest, otherwise one tree per
root person. -/
def treeStructure (fuel : Nat) (data : List PersonWithRelationships) :
    Option (List TreeNode) :=
  if data.length == 0 then some []
  else optionMap (fun person => buildTree fuel data person 0) (rootPeople data)

/-- `Occurs s t`: the node `s` occurs somewhere in the tree rooted at
`t` (at the root or in a child subtree). -/
inductive Occurs : TreeNode → TreeNode → Prop where
  | here (t : TreeNode) : Occurs t t
  | child (s c t : TreeNode) : c ∈ t.children → Occurs s c → Occurs s t

/-- `OccursForest s forest`: the node `s` occurs in some tree of the
forest. -/
def OccursForest (s : TreeNode) (forest : List TreeNode) : Prop :=
  ∃ t ∈ forest, Occurs s t

/-! ### Helper lemmas about the list primitives used by the handlers -/

lemma personFilter_eq_nil_iff (people : List Person) (x : Nat) :
    people.filter (fun p => p.id == x) = [] ↔ ∀ p ∈ people, p.id ≠ x := by
  simp [List.filter_eq_nil_iff]

lemma id_inj_of_nodup {people : List Person}
    (hnd : (people.map Person.id).Nodup) {p q : Person}
    (hp : p ∈ people) (hq : q ∈ people) (h : p.id = q.id) : p = q :=
  List.inj_on_of_nodup_map hnd hp hq h

lemma personFilter_eq_single {people : List Person}
    (hnd : (people.map Person.id).Nodup) {p : Person} {x : Nat}
    (hp : p ∈ people) (hx : p.id = x) :
    people.filter (fun q => q.id == x) = [p] := by
  induction people with
  | nil => cases hp
  | cons a l ih =>
    have hnd' : (l.map Person.id).Nodup := (List.nodup_cons.mp hnd).2
    have hna : a.id ∉ l.map Person.id := (List.nodup_cons.mp hnd).1
    rcases List.mem_cons.mp hp with rfl | hmem
    · have : l.filter (fun q => q.id == x) = [] := by
        rw [personFilter_eq_nil_iff]
        intro q hq hqx
        exact hna (hx ▸ hqx ▸ List.mem_map_of_mem Person.id hq)
      simp [List.filter_cons, hx, this]
    · have hax : ¬(a.id = x) := by
        intro hax
        exact hna (hax ▸ hx ▸ List.mem_map_of_mem Person.id hmem)
      simp [List.filter_cons, hax, ih hnd' hmem]

lemma personFind?_eq_none_iff (people : List Person) (x : Nat) :
    people.find? (fun p => p.id == x) = none ↔ ∀ p ∈ people, p.id ≠ x := by
  simp [List.find?_eq_none]

lemma personFind?_isSome_iff (people : List Person) (x : Nat) :
    (people.find? (fun p => p.id == x)).isSome ↔ ∃ p ∈ people, p.id = x := by
  rw [Option.isSome_iff_ne_none]
  simp only [ne_eq, personFind?_eq_none_iff]
  push_neg
  rfl

lemma personFind?_eq_some_iff {people : List Person}
    (hnd : (people.map Person.id).Nodup) (x : Nat) (q : Person) :
    people.find? (fun p => p.id == x) = some q ↔ q ∈ people ∧ q.id = x := by
  constructor
  · intro h
    refine ⟨List.mem_of_find?_eq_some h, ?_⟩
    simpa using List.find?_some h
  · rintro ⟨hq, hx⟩
    induction people with
    | nil => cases hq
    | cons a l ih =>
      have hnd' : (l.map Person.id).Nodup := (List.nodup_cons.mp hnd).2
      have hna : a.id ∉ l.map Person.id := (List.nodup_cons.mp hnd).1
      rcases List.mem_cons.mp hq with rfl | hmem
      · simp [List.find?_cons, hx]
      · have hax : ¬(a.id = x) := by
          intro hax
          exact hna (hax ▸ hx ▸ List.mem_map_of_mem Person.id hmem)
        have hfalse : (a.id == x) = false := by simp [hax]
        simp only [List.find?_cons, hfalse]
        exact ih hnd' hmem

lemma exceptMap_eq_map {f : α → Except String β} {g : α → β} {l : List α}
    (h : ∀ a ∈ l, f a = .ok (g a)) : exceptMap f l = .ok (l.map g) := by
  induction l with
  | nil => rfl
  | cons a rest ih =>
    have ha := h a (List.mem_cons_self a rest)
    have hrest := ih (fun b hb => h b (List.mem_cons_of_mem a hb))
    simp [exceptMap, ha, hrest]

lemma exceptMap_ok_forall {f : α → Except String β} {l : List α} {bs : List β}
    (h : exceptMap f l = .ok bs) : ∀ a ∈ l, ∃ b, f a = .ok b := by
  induction l generalizing bs with
  | nil => intro a ha; cases ha
  | cons a rest ih =>
    intro c hc
    revert h
    simp only [exceptMap]
    cases hfa : f a with
    | error e => intro h; cases h
    | ok b =>
      cases hrest : exceptMap f rest with
      | error e => intro h; cases h
      | ok bs' =>
        intro _
        rcases List.mem_cons.mp hc with rfl | hmem
        · exact ⟨b, hfa⟩
        · exact ih hrest c hmem

lemma personFilter_length_beq_zero_false {people : List Person} {x : Nat}
    (h : ∃ p ∈ people, p.id = x) :
    ((people.filter (fun p => p.id == x)).length == 0) = false := by
  rcases h with ⟨p, hp, hx⟩
  have hmem : p ∈ people.filter (fun q => q.id == x) :=
    List.mem_filter.mpr ⟨hp, by simp [hx]⟩
  simp only [beq_eq_false_iff_ne, ne_eq, List.length_eq_zero]
  intro hnil
  rw [hnil] at hmem
  cases hmem

lemma relFilter_eq_nil_iff (rels : List Relationship) (a b : Nat) :
    rels.filter (fun r => r.parent_id == a && r.child_id == b) = [] ↔
      ∀ r ∈ rels, ¬(r.parent_id = a ∧ r.child_id = b) := by
  simp [List.filter_eq_nil_iff, not_and]

lemma relFilter_length_pos {rels : List Relationship} {a b : Nat}
    (h : ∃ r ∈ rels, r.parent_id = a ∧ r.child_id = b) :
    0 < (rels.filter (fun r => r.parent_id == a && r.child_id == b)).length := by
  rcases h with ⟨r, hr, h1, h2⟩
  have hmem : r ∈ rels.filter (fun r => r.parent_id == a && r.child_id == b) :=
    List.mem_filter.mpr ⟨hr, by simp [h1, h2]⟩
  exact List.length_pos.mpr (fun hnil => by rw [hnil] at hmem; cases hmem)

/-! ### C1: the five ordered checks of createRelationship -/

/-- C1: for every candidate pair and every dataset state,
`createRelationship` runs exactly five short-circuiting checks in order
-- self pair, parent existence, child existence, duplicate edge,
reversed edge -- each failing with its own distinct error, and when all
five pass it persists a new edge carrying the fresh serial id. -/
theorem C1_createRelationship_five_checks
    (people : List Person) (rels : List Relationship) (nextId now : Nat)
    (input : CreateRelationshipInput) :
    (input.parent_id = input.child_id →
      createRelationship people rels nextId now input =
        .error RelFailure.selfRelationship)
    ∧ (input.parent_id ≠ input.child_id →
        (∀ p ∈ people, p.id ≠ input.parent_id) →
        createRelationship people rels nextId now input =
          .error (RelFailure.parentNotFound input.parent_id))
    ∧ (input.parent_id ≠ input.child_id →
        (∃ p ∈ people, p.id = input.parent_id) →
        (∀ p ∈ people, p.id ≠ input.child_id) →
        createRelationship people rels nextId now input =
          .error (RelFailure.childNotFound input.child_id))
    ∧ (input.parent_id ≠ input.child_id →
        (∃ p ∈ people, p.id = input.parent_id) →
        (∃ p ∈ people, p.id = input.child_id) →
        (∃ r ∈ rels, r.parent_id = input.parent_id ∧ r.child_id = input.child_id) →
        createRelationship people rels nextId now input =
          .error RelFailure.duplicateRelationship)
    ∧ (input.parent_id ≠ input.child_id →
        (∃ p ∈ people, p.id = input.parent_id) →
        (∃ p ∈ people, p.id = input.child_id) →
        (∀ r ∈ rels, ¬(r.parent_id = input.parent_id ∧ r.child_id = input.child_id)) →
        (∃ r ∈ rels, r.parent_id = input.child_id ∧ r.child_id = input.parent_id) →
        createRelationship people rels nextId now input =
          .error RelFailure.circularRelationship)
    ∧ (input.parent_id ≠ input.child_id →
        (∃ p ∈ people, p.id = input.parent_id) →
        (∃ p ∈ people, p.id = input.child_id) →
        (∀ r ∈ rels, ¬(r.parent_id = input.parent_id ∧ r.child_id = input.child_id)) →
        (∀ r ∈ rels, ¬(r.parent_id = input.child_id ∧ r.child_id = input.parent_id)) →
        createRelationship people rels nextId now input =
          .ok (⟨nextId, input.parent_id, input.child_id, now⟩,
            rels ++ [⟨nextId, input.parent_id, input.child_id, now⟩])
        ∧ ((∀ r ∈ rels, r.id < nextId) → ∀ r ∈ rels, r.id ≠ nextId))
    ∧ (∀ a b : Nat,
        RelFailure.selfRelationship ≠ RelFailure.parentNotFound a ∧
        RelFailure.selfRelationship ≠ RelFailure.childNotFound a ∧
        RelFailure.selfRelationship ≠ RelFailure.duplicateRelationship ∧
        RelFailure.selfRelationship ≠ RelFailure.circularRelationship ∧
        RelFailure.parentNotFound a ≠ RelFailure.childNotFound b ∧
        RelFailure.parentNotFound a ≠ RelFailure.duplicateRelationship ∧
        RelFailure.parentNotFound a ≠ RelFailure.circularRelationship ∧
        RelFailure.childNotFound a ≠ RelFailure.duplicateRelationship ∧
        RelFailure.childNotFound a ≠ RelFailure.circularRelationship ∧
        RelFailure.duplicateRelationship ≠ RelFailure.circularRelationship) := by
  refine ⟨?_, ?_, ?_, ?_, ?_, ?_, ?_⟩
  · intro h
    simp [createRelationship, h]
  · intro hne hnp
    have hb : (input.parent_id == input.child_id) = false := by simp [hne]
    have hf : people.filter (fun p => p.id == input.parent_id) = [] :=
      (personFilter_eq_nil_iff _ _).mpr hnp
    simp [createRelationship, hb, hf]
  · intro hne hp hnc
    have hb : (input.parent_id == input.child_id) = false := by simp [hne]
    have hpf := personFilter_length_beq_zero_false hp
    have hf : people.filter (fun p => p.id == input.child_id) = [] :=
      (personFilter_eq_nil_iff _ _).mpr hnc
    simp [createRelationship, hb, hpf, hf]
  · intro hne hp hc hdup
    have hb : (input.parent_id == input.child_id) = false := by simp [hne]
    have hpf := personFilter_length_beq_zero_false hp
    have hcf := personFilter_length_beq_zero_false hc
    have hd := relFilter_length_pos hdup
    simp [createRelationship, hb, hpf, hcf, hd]
  · intro hne hp hc hnodup hcirc
    have hb : (input.parent_id == input.child_id) = false := by simp [hne]
    have hpf := personFilter_length_beq_zero_false hp
    have hcf := personFilter_length_beq_zero_false hc
    have hd : rels.filter
        (fun r => r.parent_id == input.parent_id && r.child_id == input.child_id) = [] :=
      (relFilter_eq_nil_iff _ _ _).mpr hnodup
    have hcp := relFilter_length_pos hcirc
    simp [createRelationship, hb, hpf, hcf, hd, hcp]
  · intro hne hp hc hnodup hnocirc
    have hb : (input.parent_id == input.child_id) = false := by simp [hne]
    have hpf := personFilter_length_beq_zero_false hp
    have hcf := personFilter_length_beq_zero_false hc
    have hd : rels.filter
        (fun r => r.parent_id == input.parent_id && r.child_id == input.child_id) = [] :=
      (relFilter_eq_nil_iff _ _ _).mpr hnodup
    have hcirc : rels.filter
        (fun r => r.parent_id == input.child_id && r.child_id == input.parent_id) = [] :=
      (relFilter_eq_nil_iff _ _ _).mpr hnocirc
    refine ⟨by simp [createRelationship, hb, hpf, hcf, hd, hcirc], ?_⟩
    intro hlt r hr
    exact Nat.ne_of_lt (hlt r hr)
  · intro a b
    refine ⟨?_, ?_, ?_, ?_, ?_, ?_, ?_, ?_, ?_, ?_⟩ <;> simp

/-- C1 witness: with people Alice (id 1) and Bob (id 2) and no edges, a
self pair fails with the self error, an absent parent fails with the
parent error, and the pair (1, 2) is persisted with the fresh id 1. -/
theorem C1_witness :
    createRelationship
        [⟨1, "Alice", none, none, none, 0, 0⟩, ⟨2, "Bob", none, none, none, 0, 0⟩]
        [] 1 5 ⟨1, 1⟩ = .error RelFailure.selfRelationship
    ∧ createRelationship
        [⟨1, "Alice", none, none, none, 0, 0⟩, ⟨2, "Bob", none, none, none, 0, 0⟩]
        [] 1 5 ⟨3, 1⟩ = .error (RelFailure.parentNotFound 3)
    ∧ createRelationship
        [⟨1, "Alice", none, none, none, 0, 0⟩, ⟨2, "Bob", none, none, none, 0, 0⟩]
        [] 1 5 ⟨1, 2⟩ = .ok (⟨1, 1, 2, 5⟩, [⟨1, 1, 2, 5⟩]) := by
  refine ⟨?_, ?_, ?_⟩
  · exact (C1_createRelationship_five_checks
      [⟨1, "Alice", none, none, none, 0, 0⟩, ⟨2, "Bob", none, none, none, 0, 0⟩]
      [] 1 5 ⟨1, 1⟩).1 rfl
  · exact (C1_createRelationship_five_checks
      [⟨1, "Alice", none, none, none, 0, 0⟩, ⟨2, "Bob", none, none, none, 0, 0⟩]
      [] 1 5 ⟨3, 1⟩).2.1 (by decide) (by decide)
  · exact ((C1_createRelationship_five_checks
      [⟨1, "Alice", none, none, none, 0, 0⟩, ⟨2, "Bob", none, none, none, 0, 0⟩]
      [] 1 5 ⟨1, 2⟩).2.2.2.2.2.1 (by decide) (by decide) (by decide)
      (by decide) (by decide)).1

/-! ### C9: the self check precedes the existence checks -/

/-- C9: `createRelationship (x, x)` fails with the self-relationship
error even when no person with id `x` exists, because the self-equality
check runs before the existence checks; the not-found errors are never
produced for a self pair. -/
theorem C9_self_pair_before_existence
    (people : List Person) (rels : List Relationship) (nextId now x : Nat)
    (habs : ∀ p ∈ people, p.id ≠ x) :
    createRelationship people rels nextId now ⟨x, x⟩ =
      .error RelFailure.selfRelationship
    ∧ RelFailure.selfRelationship ≠ RelFailure.parentNotFound x
    ∧ RelFailure.selfRelationship ≠ RelFailure.childNotFound x := by
  refine ⟨?_, by simp, by simp⟩
  simp [createRelationship]

/-- C9 witness: on the empty dataset, the self pair (7, 7) fails with
the self-relationship error although id 7 does not exist. -/
theorem C9_witness :
    createRelationship [] [] 1 0 ⟨7, 7⟩ = .error RelFailure.selfRelationship
    ∧ RelFailure.selfRelationship ≠ RelFailure.parentNotFound 7
    ∧ RelFailure.selfRelationship ≠ RelFailure.childNotFound 7 :=
  C9_self_pair_before_existence [] [] 1 0 7 (by simp)

/-! ### C7: deletePerson cascades and leaves the rest untouched -/

/-- C7: for every existing person, `deletePerson` removes that person
and every edge referencing them as parent or child, keeps exactly the
other people and the edges not referencing them, and reports success;
for an absent id it fails with the not-found error. -/
theorem C7_deletePerson_cascade
    (people : List Person) (rels : List Relationship) (id : Nat) :
    ((∀ p ∈ people, p.id ≠ id) →
      deletePerson people rels id =
        .error ("Person with id " ++ toString id ++ " not found"))
    ∧ (∀ p ∈ people, p.id = id →
        ∃ people' rels',
          deletePerson people rels id = .ok (true, people', rels')
          ∧ (∀ q, q ∈ people' ↔ q ∈ people ∧ q.id ≠ id)
          ∧ (∀ r, r ∈ rels' ↔ r ∈ rels ∧ r.parent_id ≠ id ∧ r.child_id ≠ id)) := by
  constructor
  · intro habs
    have hf : people.filter (fun p => p.id == id) = [] :=
      (personFilter_eq_nil_iff _ _).mpr habs
    simp [deletePerson, hf]
  · intro p hp hpid
    have hmem : p ∈ people.filter (fun q => q.id == id) :=
      List.mem_filter.mpr ⟨hp, by simp [hpid]⟩
    refine ⟨people.filter (fun q => !(q.id == id)),
      rels.filter (fun r => !(r.parent_id == id) && !(r.child_id == id)), ?_, ?_, ?_⟩
    · cases hcase : people.filter (fun q => q.id == id) with
      | nil => rw [hcase] at hmem; cases hmem
      | cons a l => simp [deletePerson, hcase]
    · intro q
      simp [List.mem_filter]
    · intro r
      simp [List.mem_filter]

/-- C7 witness: deleting person 1 from the dataset with people 1, 2, 3
and edges 1→2, 3→1, 2→3 keeps exactly people 2 and 3 and the edge 2→3. -/
theorem C7_witness :
    ∃ people' rels',
      deletePerson
          [⟨1, "A", none, none, none, 0, 0⟩, ⟨2, "B", none, none, none, 0, 0⟩,
            ⟨3, "C", none, none, none, 0, 0⟩]
          [⟨1, 1, 2, 0⟩, ⟨2, 3, 1, 0⟩, ⟨3, 2, 3, 0⟩] 1 = .ok (true, people', rels')
      ∧ (∀ q, q ∈ people' ↔
          q ∈ [⟨1, "A", none, none, none, 0, 0⟩, ⟨2, "B", none, none, none, 0, 0⟩,
            (⟨3, "C", none, none, none, 0, 0⟩ : Person)] ∧ q.id ≠ 1)
      ∧ (∀ r, r ∈ rels' ↔
          r ∈ [⟨1, 1, 2, 0⟩, ⟨2, 3, 1, 0⟩, (⟨3, 2, 3, 0⟩ : Relationship)]
            ∧ r.parent_id ≠ 1 ∧ r.child_id ≠ 1) :=
  (C7_deletePerson_cascade
    [⟨1, "A", none, none, none, 0, 0⟩, ⟨2, "B", none, none, none, 0, 0⟩,
      ⟨3, "C", none, none, none, 0, 0⟩]
    [⟨1, 1, 2, 0⟩, ⟨2, 3, 1, 0⟩, ⟨3, 2, 3, 0⟩] 1).2
    ⟨1, "A", none, none, none, 0, 0⟩ (by simp) rfl

/-! ### C8: deleteRelationship on a missing pair is a soft failure -/

/-- C8: when no edge matches the pair, `deleteRelationship` returns
success `false` with the edge list unchanged and raises no error; when a
matching edge exists it returns success `true` and removes exactly the
matching edges. -/
theorem C8_deleteRelationship_soft_failure
    (rels : List Relationship) (pid cid : Nat) :
    ((∀ r ∈ rels, ¬(r.parent_id = pid ∧ r.child_id = cid)) →
      deleteRelationship rels pid cid = (false, rels))
    ∧ ((∃ r ∈ rels, r.parent_id = pid ∧ r.child_id = cid) →
        (deleteRelationship rels pid cid).1 = true
        ∧ (∀ r, r ∈ (deleteRelationship rels pid cid).2 ↔
            r ∈ rels ∧ ¬(r.parent_id = pid ∧ r.child_id = cid))) := by
  constructor
  · intro habs
    have hf : rels.filter (fun r => r.parent_id == pid && r.child_id == cid) = [] :=
      (relFilter_eq_nil_iff _ _ _).mpr habs
    have hall : rels.filter
        (fun r => !(r.parent_id == pid && r.child_id == cid)) = rels := by
      rw [List.filter_eq_self]
      intro r hr
      have := habs r hr
      simp only [Bool.not_eq_true', Bool.and_eq_false_imp] at this ⊢
      intro h1
      simp_all
    simp only [deleteRelationship, hf, hall, List.length_nil, Nat.lt_irrefl,
      decide_False]
  · intro hex
    have hpos := relFilter_length_pos hex
    constructor
    · simp [deleteRelationship, hpos]
    · intro r
      simp only [deleteRelationship, List.mem_filter, Bool.not_eq_true',
        Bool.and_eq_false_iff, beq_eq_false_iff_ne, ne_eq]
      constructor
      · rintro ⟨hr, h⟩
        exact ⟨hr, by tauto⟩
      · rintro ⟨hr, h⟩
        exact ⟨hr, by tauto⟩

/-- C8 witness: on the single edge 1→2, deleting the pair (1, 3)
returns success `false` with the list unchanged, and deleting (1, 2)
returns success `true` with the matching edge removed. -/
theorem C8_witness :
    deleteRelationship [⟨1, 1, 2, 0⟩] 1 3 = (false, [⟨1, 1, 2, 0⟩])
    ∧ ((deleteRelationship [⟨1, 1, 2, 0⟩] 1 2).1 = true
      ∧ ∀ r, r ∈ (deleteRelationship [⟨1, 1, 2, 0⟩] 1 2).2 ↔
          r ∈ [(⟨1, 1, 2, 0⟩ : Relationship)] ∧ ¬(r.parent_id = 1 ∧ r.child_id = 2)) :=
  ⟨(C8_deleteRelationship_soft_failure [⟨1, 1, 2, 0⟩] 1 3).1 (by decide),
    (C8_deleteRelationship_soft_failure [⟨1, 1, 2, 0⟩] 1 2).2 ⟨⟨1, 1, 2, 0⟩, by simp⟩⟩

/-! ### C5: updatePerson updates only the supplied fields -/

/-- C5: `updatePerson` on an existing person changes only the supplied
fields: an absent field keeps its prior value, `created_at` is
untouched, `updated_at` becomes the current time (strictly increasing
when time advanced), and every other person is left unchanged; on an
absent id it fails with the not-found error. -/
theorem C5_updatePerson_frame
    (people : List Person) (now : Nat) (input : UpdatePersonInput) :
    ((∀ p ∈ people, p.id ≠ input.id) →
      updatePerson people now input =
        .error ("Person with id " ++ toString input.id ++ " not found"))
    ∧ (∀ p, (people.map Person.id).Nodup → p ∈ people → p.id = input.id →
        ∃ p' people',
          updatePerson people now input = .ok (p', people')
          ∧ (input.full_name = none → p'.full_name = p.full_name)
          ∧ (∀ s, input.full_name = some s → p'.full_name = s)
          ∧ (input.birth_date = none → p'.birth_date = p.birth_date)
          ∧ (input.death_date = none → p'.death_date = p.death_date)
          ∧ (input.photo_url = none → p'.photo_url = p.photo_url)
          ∧ p'.id = p.id
          ∧ p'.created_at = p.created_at
          ∧ p'.updated_at = now
          ∧ (p.updated_at < now → p.updated_at < p'.updated_at)
          ∧ (∀ q ∈ people, q.id ≠ input.id → q ∈ people')
          ∧ (∀ q ∈ people', q = p' ∨ (q ∈ people ∧ q.id ≠ input.id))
          ∧ people'.length = people.length) := by
  constructor
  · intro habs
    have hf : people.filter (fun p => p.id == input.id) = [] :=
      (personFilter_eq_nil_iff _ _).mpr habs
    simp [updatePerson, hf]
  · intro p hnd hp hpid
    have hsingle : people.filter (fun q => q.id == input.id) = [p] :=
      personFilter_eq_single hnd hp hpid
    refine ⟨applyUpdate input now p,
      people.map (fun q => if q.id == input.id then applyUpdate input now q else q),
      ?_, ?_, ?_, ?_, ?_, ?_, ?_, ?_, ?_, ?_, ?_, ?_, ?_⟩
    · simp [updatePerson, hsingle]
    · intro h; simp [applyUpdate, h]
    · intro s h; simp [applyUpdate, h]
    · intro h; simp [applyUpdate, h]
    · intro h; simp [applyUpdate, h]
    · intro h; simp [applyUpdate, h]
    · simp [applyUpdate]
    · simp [applyUpdate]
    · simp [applyUpdate]
    · intro h; simpa [applyUpdate] using h
    · intro q hq hqid
      refine List.mem_map.mpr ⟨q, hq, ?_⟩
      simp [hqid]
    · intro q hq
      rcases List.mem_map.mp hq with ⟨a, ha, heq⟩
      by_cases hcase : a.id = input.id
      · left
        have hap : a = p := id_inj_of_nodup hnd ha hp (by rw [hcase, hpid])
        rw [← heq, hap, if_pos (by simp [hpid])]
      · right
        rw [← heq, if_neg (by simp [hcase])]
        exact ⟨ha, hcase⟩
    · simp

/-- C5 witness: updating only the name of person 1 keeps the dates,
photo and creation time, refreshes `updated_at` to the later time 20,
and leaves person 2 in place. -/
theorem C5_witness :
    ∃ p' people',
      updatePerson
          [⟨1, "Old Name", some 5, none, none, 10, 10⟩,
            ⟨2, "Other", none, none, none, 3, 3⟩]
          20 ⟨1, some "New Name", none, none, none⟩ = .ok (p', people')
      ∧ ((⟨1, some "New Name", none, none, none⟩ : UpdatePersonInput).full_name = none →
          p'.full_name = "Old Name")
      ∧ (∀ s, (⟨1, some "New Name", none, none, none⟩ : UpdatePersonInput).full_name = some s →
          p'.full_name = s)
      ∧ ((⟨1, some "New Name", none, none, none⟩ : UpdatePersonInput).birth_date = none →
          p'.birth_date = some 5)
      ∧ ((⟨1, some "New Name", none, none, none⟩ : UpdatePersonInput).death_date = none →
          p'.death_date = none)
      ∧ ((⟨1, some "New Name", none, none, none⟩ : UpdatePersonInput).photo_url = none →
          p'.photo_url = none)
      ∧ p'.id = 1
      ∧ p'.created_at = 10
      ∧ p'.updated_at = 20
      ∧ (10 < 20 → 10 < p'.updated_at)
      ∧ (∀ q ∈ [⟨1, "Old Name", some 5, none, none, 10, 10⟩,
          (⟨2, "Other", none, none, none, 3, 3⟩ : Person)], q.id ≠ 1 → q ∈ people')
      ∧ (∀ q ∈ people', q = p' ∨ (q ∈ [⟨1, "Old Name", some 5, none, none, 10, 10⟩,
          (⟨2, "Other", none, none, none, 3, 3⟩ : Person)] ∧ q.id ≠ 1))
      ∧ people'.length = 2 :=
  (C5_updatePerson_frame
    [⟨1, "Old Name", some 5, none, none, 10, 10⟩, ⟨2, "Other", none, none, none, 3, 3⟩]
    20 ⟨1, some "New Name", none, none, none⟩).2
    ⟨1, "Old Name", some 5, none, none, 10, 10⟩ (by decide) (by simp) rfl

lemma filterMap_length_of_isSome {f : α → Option β} {l : List α}
    (h : ∀ a ∈ l, (f a).isSome) : (l.filterMap f).length = l.length := by
  induction l with
  | nil => rfl
  | cons a rest ih =>
    rcases Option.isSome_iff_exists.mp (h a (List.mem_cons_self a rest)) with ⟨b, hb⟩
    simp [List.filterMap_cons, hb,
      ih (fun x hx => h x (List.mem_cons_of_mem a hx))]

/-! ### C6: getPerson resolves relationships or returns null -/

/-- C6: `getPerson` returns `none` when the id is absent; otherwise it
returns the person with parents exactly the people having an edge into
them and children exactly the people they have an edge to, and when all
parent edges resolve, the parents list has one entry per parent edge
(so a two-parent child reports both parents whatever the edge insertion
order). -/
theorem C6_getPerson_resolves
    (people : List Person) (rels : List Relationship) (id : Nat) :
    ((∀ p ∈ people, p.id ≠ id) → getPerson people rels id = none)
    ∧ (∀ p, (people.map Person.id).Nodup → p ∈ people → p.id = id →
        ∃ res, getPerson people rels id = some res
          ∧ res.id = p.id ∧ res.full_name = p.full_name
          ∧ res.birth_date = p.birth_date ∧ res.death_date = p.death_date
          ∧ res.photo_url = p.photo_url
          ∧ res.created_at = p.created_at ∧ res.updated_at = p.updated_at
          ∧ (∀ q, q ∈ res.parents ↔
              q ∈ people ∧ ∃ r ∈ rels, r.parent_id = q.id ∧ r.child_id = id)
          ∧ (∀ q, q ∈ res.children ↔
              q ∈ people ∧ ∃ r ∈ rels, r.parent_id = id ∧ r.child_id = q.id)
          ∧ ((∀ r ∈ rels, r.child_id = id → ∃ p2 ∈ people, p2.id = r.parent_id) →
              res.parents.length =
                (rels.filter (fun r => r.child_id == id)).length)) := by
  constructor
  · intro habs
    have hf : people.filter (fun p => p.id == id) = [] :=
      (personFilter_eq_nil_iff _ _).mpr habs
    simp [getPerson, hf]
  · intro p hnd hp hpid
    have hsingle : people.filter (fun q => q.id == id) = [p] :=
      personFilter_eq_single hnd hp hpid
    refine ⟨⟨p.id, p.full_name, p.birth_date, p.death_date, p.photo_url,
      p.created_at, p.updated_at,
      (rels.filter (fun r => r.child_id == id)).filterMap
        (fun r => people.find? (fun q => q.id == r.parent_id)),
      (rels.filter (fun r => r.parent_id == id)).filterMap
        (fun r => people.find? (fun q => q.id == r.child_id))⟩,
      ?_, rfl, rfl, rfl, rfl, rfl, rfl, rfl, ?_, ?_, ?_⟩
    · simp [getPerson, hsingle]
    · intro q
      constructor
      · intro hq
        rcases List.mem_filterMap.mp hq with ⟨r, hrf, hfind⟩
        rcases List.mem_filter.mp hrf with ⟨hr, hcid⟩
        rcases (personFind?_eq_some_iff hnd _ q).mp hfind with ⟨hqpeople, hqid⟩
        exact ⟨hqpeople, r, hr, hqid.symm, by simpa using hcid⟩
      · rintro ⟨hqpeople, r, hr, hpid', hcid⟩
        refine List.mem_filterMap.mpr
          ⟨r, List.mem_filter.mpr ⟨hr, by simp [hcid]⟩, ?_⟩
        exact (personFind?_eq_some_iff hnd _ q).mpr ⟨hqpeople, hpid'.symm⟩
    · intro q
      constructor
      · intro hq
        rcases List.mem_filterMap.mp hq with ⟨r, hrf, hfind⟩
        rcases List.mem_filter.mp hrf with ⟨hr, hpid'⟩
        rcases (personFind?_eq_some_iff hnd _ q).mp hfind with ⟨hqpeople, hqid⟩
        exact ⟨hqpeople, r, hr, by simpa using hpid', hqid.symm⟩
      · rintro ⟨hqpeople, r, hr, hpid', hcid⟩
        refine List.mem_filterMap.mpr
          ⟨r, List.mem_filter.mpr ⟨hr, by simp [hpid']⟩, ?_⟩
        exact (personFind?_eq_some_iff hnd _ q).mpr ⟨hqpeople, hcid.symm⟩
    · intro hres
      apply filterMap_length_of_isSome
      intro r hr
      rcases List.mem_filter.mp hr with ⟨hrm, hcid⟩
      exact (personFind?_isSome_iff _ _).mpr
        (hres r hrm (by simpa using hcid))

/-- C6 witness: a child (id 3) with recorded parents 1 and 2 reports
both parents with a parents list of length 2, for either insertion
order of the two edges. -/
theorem C6_witness :
    (∃ res, getPerson
        [⟨1, "P1", none, none, none, 0, 0⟩, ⟨2, "P2", none, none, none, 0, 0⟩,
          ⟨3, "Kid", none, none, none, 0, 0⟩]
        [⟨1, 1, 3, 0⟩, ⟨2, 2, 3, 0⟩] 3 = some res
      ∧ (∀ q, q ∈ res.parents ↔
          q ∈ [⟨1, "P1", none, none, none, 0, 0⟩, ⟨2, "P2", none, none, none, 0, 0⟩,
            (⟨3, "Kid", none, none, none, 0, 0⟩ : Person)]
          ∧ ∃ r ∈ [⟨1, 1, 3, 0⟩, (⟨2, 2, 3, 0⟩ : Relationship)],
              r.parent_id = q.id ∧ r.child_id = 3)
      ∧ res.parents.length = 2)
    ∧ (∃ res, getPerson
        [⟨1, "P1", none, none, none, 0, 0⟩, ⟨2, "P2", none, none, none, 0, 0⟩,
          ⟨3, "Kid", none, none, none, 0, 0⟩]
        [⟨2, 2, 3, 0⟩, ⟨1, 1, 3, 0⟩] 3 = some res
      ∧ (∀ q, q ∈ res.parents ↔
          q ∈ [⟨1, "P1", none, none, none, 0, 0⟩, ⟨2, "P2", none, none, none, 0, 0⟩,
            (⟨3, "Kid", none, none, none, 0, 0⟩ : Person)]
          ∧ ∃ r ∈ [⟨2, 2, 3, 0⟩, (⟨1, 1, 3, 0⟩ : Relationship)],
              r.parent_id = q.id ∧ r.child_id = 3)
      ∧ res.parents.length = 2) := by
  constructor
  · rcases (C6_getPerson_resolves
        [⟨1, "P1", none, none, none, 0, 0⟩, ⟨2, "P2", none, none, none, 0, 0⟩,
          ⟨3, "Kid", none, none, none, 0, 0⟩]
        [⟨1, 1, 3, 0⟩, ⟨2, 2, 3, 0⟩] 3).2
        ⟨3, "Kid", none, none, none, 0, 0⟩ (by decide) (by simp) rfl with
      ⟨res, h1, _, _, _, _, _, _, _, hpar, _, hlen⟩
    exact ⟨res, h1, hpar, by rw [hlen (by decide)]; decide⟩
  · rcases (C6_getPerson_resolves
        [⟨1, "P1", none, none, none, 0, 0⟩, ⟨2, "P2", none, none, none, 0, 0⟩,
          ⟨3, "Kid", none, none, none, 0, 0⟩]
        [⟨2, 2, 3, 0⟩, ⟨1, 1, 3, 0⟩] 3).2
        ⟨3, "Kid", none, none, none, 0, 0⟩ (by decide) (by simp) rfl with
      ⟨res, h1, _, _, _, _, _, _, _, hpar, _, hlen⟩
    exact ⟨res, h1, hpar, by rw [hlen (by decide)]; decide⟩

/-! ### getFamilyTree: the successful value and its characterization -/

/-- The entry `getFamilyTree` produces for one person when every
processed edge resolves. -/
def entryOf (people : List Person) (rels : List Relationship) (p : Person) :
    PersonWithRelationships :=
  ⟨p.id, p.full_name, p.birth_date, p.death_date, p.photo_url,
    p.created_at, p.updated_at,
    (rels.filter (fun r => r.child_id == p.id)).filterMap
      (fun r => people.find? (fun q => q.id == r.parent_id)),
    (rels.filter (fun r => r.parent_id == p.id)).filterMap
      (fun r => people.find? (fun q => q.id == r.child_id))⟩

lemma exceptMap_resolveChild_eq (people : List Person) {l : List Relationship}
    (h : ∀ r ∈ l, ∃ p ∈ people, p.id = r.child_id) :
    exceptMap (resolveChild people) l =
      .ok (l.filterMap (fun r => people.find? (fun q => q.id == r.child_id))) := by
  induction l with
  | nil => rfl
  | cons r rest ih =>
    have hsome : (people.find? (fun q => q.id == r.child_id)).isSome :=
      (personFind?_isSome_iff _ _).mpr (h r (List.mem_cons_self r rest))
    rcases Option.isSome_iff_exists.mp hsome with ⟨c, hc⟩
    simp [exceptMap, resolveChild, hc, List.filterMap_cons,
      ih (fun x hx => h x (List.mem_cons_of_mem r hx))]

lemma exceptMap_resolveParent_eq (people : List Person) {l : List Relationship}
    (h : ∀ r ∈ l, ∃ p ∈ people, p.id = r.parent_id) :
    exceptMap (resolveParent people) l =
      .ok (l.filterMap (fun r => people.find? (fun q => q.id == r.parent_id))) := by
  induction l with
  | nil => rfl
  | cons r rest ih =>
    have hsome : (people.find? (fun q => q.id == r.parent_id)).isSome :=
      (personFind?_isSome_iff _ _).mpr (h r (List.mem_cons_self r rest))
    rcases Option.isSome_iff_exists.mp hsome with ⟨c, hc⟩
    simp [exceptMap, resolveParent, hc, List.filterMap_cons,
      ih (fun x hx => h x (List.mem_cons_of_mem r hx))]

lemma personEntry_ok (people : List Person) (rels : List Relationship)
    (hint : ∀ r ∈ rels,
      (∃ p ∈ people, p.id = r.parent_id) ∧ (∃ p ∈ people, p.id = r.child_id))
    (p : Person) :
    personEntry people rels p = .ok (entryOf people rels p) := by
  have hc : exceptMap (resolveChild people)
      (rels.filter (fun r => r.parent_id == p.id)) =
      .ok ((rels.filter (fun r => r.parent_id == p.id)).filterMap
        (fun r => people.find? (fun q => q.id == r.child_id))) :=
    exceptMap_resolveChild_eq people
      (fun r hr => (hint r (List.mem_of_mem_filter hr)).2)
  have hp : exceptMap (resolveParent people)
      (rels.filter (fun r => r.child_id == p.id)) =
      .ok ((rels.filter (fun r => r.child_id == p.id)).filterMap
        (fun r => people.find? (fun q => q.id == r.parent_id))) :=
    exceptMap_resolveParent_eq people
      (fun r hr => (hint r (List.mem_of_mem_filter hr)).1)
  simp [personEntry, hc, hp, entryOf]

lemma getFamilyTree_ok (people : List Person) (rels : List Relationship)
    (hint : ∀ r ∈ rels,
      (∃ p ∈ people, p.id = r.parent_id) ∧ (∃ p ∈ people, p.id = r.child_id)) :
    getFamilyTree people rels = .ok (people.map (entryOf people rels)) :=
  exceptMap_eq_map (fun p _ => personEntry_ok people rels hint p)

lemma mem_resolvedParents_iff {people : List Person}
    (hnd : (people.map Person.id).Nodup) (rels : List Relationship)
    (pid : Nat) (q : Person) :
    q ∈ (rels.filter (fun r => r.child_id == pid)).filterMap
        (fun r => people.find? (fun p2 => p2.id == r.parent_id)) ↔
      q ∈ people ∧ ∃ r ∈ rels, r.parent_id = q.id ∧ r.child_id = pid := by
  constructor
  · intro hq
    rcases List.mem_filterMap.mp hq with ⟨r, hrf, hfind⟩
    rcases List.mem_filter.mp hrf with ⟨hr, hcid⟩
    rcases (personFind?_eq_some_iff hnd _ q).mp hfind with ⟨hqpeople, hqid⟩
    exact ⟨hqpeople, r, hr, hqid.symm, by simpa using hcid⟩
  · rintro ⟨hqpeople, r, hr, hpid', hcid⟩
    refine List.mem_filterMap.mpr
      ⟨r, List.mem_filter.mpr ⟨hr, by simp [hcid]⟩, ?_⟩
    exact (personFind?_eq_some_iff hnd _ q).mpr ⟨hqpeople, hpid'.symm⟩

lemma mem_resolvedChildren_iff {people : List Person}
    (hnd : (people.map Person.id).Nodup) (rels : List Relationship)
    (pid : Nat) (q : Person) :
    q ∈ (rels.filter (fun r => r.parent_id == pid)).filterMap
        (fun r => people.find? (fun p2 => p2.id == r.child_id)) ↔
      q ∈ people ∧ ∃ r ∈ rels, r.parent_id = pid ∧ r.child_id = q.id := by
  constructor
  · intro hq
    rcases List.mem_filterMap.mp hq with ⟨r, hrf, hfind⟩
    rcases List.mem_filter.mp hrf with ⟨hr, hpid'⟩
    rcases (personFind?_eq_some_iff hnd _ q).mp hfind with ⟨hqpeople, hqid⟩
    exact ⟨hqpeople, r, hr, by simpa using hpid', hqid.symm⟩
  · rintro ⟨hqpeople, r, hr, hpid', hcid⟩
    refine List.mem_filterMap.mpr
      ⟨r, List.mem_filter.mpr ⟨hr, by simp [hpid']⟩, ?_⟩
    exact (personFind?_eq_some_iff hnd _ q).mpr ⟨hqpeople, hcid.symm⟩

lemma resolveParent_ok_inv {people : List Person} {r : Relationship} {b : Person}
    (h : resolveParent people r = .ok b) :
    people.find? (fun q => q.id == r.parent_id) = some b := by
  revert h
  unfold resolveParent
  cases hf : people.find? (fun q => q.id == r.parent_id) with
  | none => intro h; cases h
  | some c => intro h; cases h; rfl

lemma resolveChild_ok_inv {people : List Person} {r : Relationship} {b : Person}
    (h : resolveChild people r = .ok b) :
    people.find? (fun q => q.id == r.child_id) = some b := by
  revert h
  unfold resolveChild
  cases hf : people.find? (fun q => q.id == r.child_id) with
  | none => intro h; cases h
  | some c => intro h; cases h; rfl

lemma personEntry_ok_inv {people : List Person} {rels : List Relationship}
    {p : Person} {y : PersonWithRelationships}
    (h : personEntry people rels p = .ok y) :
    (∃ cs, exceptMap (resolveChild people)
      (rels.filter (fun r => r.parent_id == p.id)) = .ok cs)
    ∧ ∃ ps, exceptMap (resolveParent people)
      (rels.filter (fun r => r.child_id == p.id)) = .ok ps := by
  revert h
  simp only [personEntry]
  cases hc : exceptMap (resolveChild people)
      (rels.filter (fun r => r.parent_id == p.id)) with
  | error e => intro h; cases h
  | ok cs =>
    cases hp : exceptMap (resolveParent people)
        (rels.filter (fun r => r.child_id == p.id)) with
    | error e => intro h; cases h
    | ok ps => intro _; exact ⟨⟨cs, rfl⟩, ⟨ps, rfl⟩⟩

/-! ### C4: the flat annotated list getFamilyTree returns -/

/-- C4 counterexample: on the dataset with the single person D (id 2)
and the single edge 1→2 whose parent id is absent, `getFamilyTree` does
not return a flat list at all: it throws, so the claim's universal
quantification over every dataset state is false. -/
theorem C4_counterexample :
    getFamilyTree [⟨2, "D", none, none, none, 0, 0⟩] [⟨1, 1, 2, 0⟩] =
      .error ("Parent with id 1 not found")
    ∧ ∀ l, getFamilyTree [⟨2, "D", none, none, none, 0, 0⟩] [⟨1, 1, 2, 0⟩] ≠ .ok l := by
  have h : getFamilyTree [⟨2, "D", none, none, none, 0, 0⟩] [⟨1, 1, 2, 0⟩] =
      .error ("Parent with id 1 not found") := rfl
  exact ⟨h, fun l hl => by rw [h] at hl; cases hl⟩

/-- C4 (amended): on every dataset state satisfying referential
integrity (each edge endpoint occurs among the people, as every mutation
preserves and the primary key guarantees unique ids), `getFamilyTree`
returns a flat list with exactly one entry per person, in which an
entry's parents are exactly the people with an edge into that person and
its children exactly the people that person has an edge to. -/
theorem C4_getFamilyTree_flat_list
    (people : List Person) (rels : List Relationship)
    (hnd : (people.map Person.id).Nodup)
    (hint : ∀ r ∈ rels,
      (∃ p ∈ people, p.id = r.parent_id) ∧ (∃ p ∈ people, p.id = r.child_id)) :
    ∃ entries, getFamilyTree people rels = .ok entries
      ∧ entries.map PersonWithRelationships.id = people.map Person.id
      ∧ entries.length = people.length
      ∧ ∀ p ∈ people, ∃ e ∈ entries, e.id = p.id
          ∧ e.full_name = p.full_name ∧ e.birth_date = p.birth_date
          ∧ e.death_date = p.death_date ∧ e.photo_url = p.photo_url
          ∧ e.created_at = p.created_at ∧ e.updated_at = p.updated_at
          ∧ (∀ q, q ∈ e.parents ↔
              q ∈ people ∧ ∃ r ∈ rels, r.parent_id = q.id ∧ r.child_id = p.id)
          ∧ (∀ q, q ∈ e.children ↔
              q ∈ people ∧ ∃ r ∈ rels, r.parent_id = p.id ∧ r.child_id = q.id) := by
  refine ⟨people.map (entryOf people rels), getFamilyTree_ok people rels hint,
    ?_, by simp, ?_⟩
  · rw [List.map_map]
    rfl
  · intro p hp
    refine ⟨entryOf people rels p, List.mem_map_of_mem _ hp,
      rfl, rfl, rfl, rfl, rfl, rfl, rfl, ?_, ?_⟩
    · intro q
      exact mem_resolvedParents_iff hnd rels p.id q
    · intro q
      exact mem_resolvedChildren_iff hnd rels p.id q

/-- C4 witness: people M (id 1) and D (id 2) with the single edge M→D.
The theorem's hypotheses hold, and the returned entries report M with
children exactly D and no parents, D with parents exactly M and no
children. -/
theorem C4_witness :
    ∃ entries,
      getFamilyTree
          [⟨1, "M", none, none, none, 0, 0⟩, ⟨2, "D", none, none, none, 0, 0⟩]
          [⟨1, 1, 2, 0⟩] = .ok entries
      ∧ entries.map PersonWithRelationships.id =
          ([⟨1, "M", none, none, none, 0, 0⟩,
            (⟨2, "D", none, none, none, 0, 0⟩ : Person)]).map Person.id
      ∧ entries.length = 2
      ∧ ∀ p ∈ [⟨1, "M", none, none, none, 0, 0⟩,
          (⟨2, "D", none, none, none, 0, 0⟩ : Person)],
          ∃ e ∈ entries, e.id = p.id
          ∧ e.full_name = p.full_name ∧ e.birth_date = p.birth_date
          ∧ e.death_date = p.death_date ∧ e.photo_url = p.photo_url
          ∧ e.created_at = p.created_at ∧ e.updated_at = p.updated_at
          ∧ (∀ q, q ∈ e.parents ↔
              q ∈ [⟨1, "M", none, none, none, 0, 0⟩,
                (⟨2, "D", none, none, none, 0, 0⟩ : Person)]
              ∧ ∃ r ∈ [(⟨1, 1, 2, 0⟩ : Relationship)],
                  r.parent_id = q.id ∧ r.child_id = p.id)
          ∧ (∀ q, q ∈ e.children ↔
              q ∈ [⟨1, "M", none, none, none, 0, 0⟩,
                (⟨2, "D", none, none, none, 0, 0⟩ : Person)]
              ∧ ∃ r ∈ [(⟨1, 1, 2, 0⟩ : Relationship)],
                  r.parent_id = p.id ∧ r.child_id = q.id) :=
  C4_getFamilyTree_flat_list
    [⟨1, "M", none, none, none, 0, 0⟩, ⟨2, "D", none, none, none, 0, 0⟩]
    [⟨1, 1, 2, 0⟩] (by decide) (by decide)

/-! ### C10: when getFamilyTree's error branches fire -/

/-- C10 counterexample: the edge 1→2 references ids with no matching
person records, yet on the dataset with no people at all `getFamilyTree`
returns a list without error: no person entry ever processes that edge,
so the claim that it throws whenever some edge references a missing id
is false. -/
theorem C10_counterexample :
    (∃ r ∈ [(⟨1, 1, 2, 0⟩ : Relationship)],
      (∀ p ∈ ([] : List Person), p.id ≠ r.parent_id)
      ∧ ∀ p ∈ ([] : List Person), p.id ≠ r.child_id)
    ∧ getFamilyTree [] [⟨1, 1, 2, 0⟩] = .ok [] :=
  ⟨⟨⟨1, 1, 2, 0⟩, by simp, by simp, by simp⟩, rfl⟩

/-- C10 (amended): `getFamilyTree` fails whenever some edge has a
missing endpoint while its other endpoint resolves to a person (the
entry of that person processes the edge and throws); under full
referential integrity the error branches are unreachable and it always
returns a list. -/
theorem C10_getFamilyTree_error_conditions
    (people : List Person) (rels : List Relationship) :
    ((∃ r ∈ rels,
        ((∀ p ∈ people, p.id ≠ r.parent_id) ∧ (∃ p ∈ people, p.id = r.child_id))
        ∨ ((∀ p ∈ people, p.id ≠ r.child_id) ∧ (∃ p ∈ people, p.id = r.parent_id))) →
      ∃ e, getFamilyTree people rels = .error e)
    ∧ ((∀ r ∈ rels,
        (∃ p ∈ people, p.id = r.parent_id) ∧ (∃ p ∈ people, p.id = r.child_id)) →
      ∃ entries, getFamilyTree people rels = .ok entries) := by
  constructor
  · rintro ⟨r, hr, hbad⟩
    cases hres : getFamilyTree people rels with
    | error e => exact ⟨e, rfl⟩
    | ok entries =>
      exfalso
      rcases hbad with ⟨hmiss, c, hc, hcid⟩ | ⟨hmiss, c, hc, hcid⟩
      · rcases exceptMap_ok_forall hres c hc with ⟨y, hy⟩
        rcases (personEntry_ok_inv hy).2 with ⟨ps, hps⟩
        have hrmem : r ∈ rels.filter (fun r2 => r2.child_id == c.id) :=
          List.mem_filter.mpr ⟨hr, by simp [hcid]⟩
        rcases exceptMap_ok_forall hps r hrmem with ⟨b, hb⟩
        have hfind := resolveParent_ok_inv hb
        have hnone : people.find? (fun q => q.id == r.parent_id) = none :=
          (personFind?_eq_none_iff _ _).mpr hmiss
        rw [hnone] at hfind
        cases hfind
      · rcases exceptMap_ok_forall hres c hc with ⟨y, hy⟩
        rcases (personEntry_ok_inv hy).1 with ⟨cs, hcs⟩
        have hrmem : r ∈ rels.filter (fun r2 => r2.parent_id == c.id) :=
          List.mem_filter.mpr ⟨hr, by simp [hcid]⟩
        rcases exceptMap_ok_forall hcs r hrmem with ⟨b, hb⟩
        have hfind := resolveChild_ok_inv hb
        have hnone : people.find? (fun q => q.id == r.child_id) = none :=
          (personFind?_eq_none_iff _ _).mpr hmiss
        rw [hnone] at hfind
        cases hfind
  · intro hint
    exact ⟨people.map (entryOf people rels), getFamilyTree_ok people rels hint⟩

/-- C10 witness: with only person 2 present, the half-dangling edge 1→2
makes `getFamilyTree` fail, while the two-person dataset with the edge
1→2 satisfies integrity and succeeds. -/
theorem C10_witness :
    (∃ e, getFamilyTree [⟨2, "D", none, none, none, 0, 0⟩] [⟨1, 1, 2, 0⟩] =
      .error e)
    ∧ ∃ entries, getFamilyTree
        [⟨1, "M", none, none, none, 0, 0⟩, ⟨2, "D", none, none, none, 0, 0⟩]
        [⟨1, 1, 2, 0⟩] = .ok entries :=
  ⟨(C10_getFamilyTree_error_conditions
      [⟨2, "D", none, none, none, 0, 0⟩] [⟨1, 1, 2, 0⟩]).1
      ⟨⟨1, 1, 2, 0⟩, by simp, Or.inl (by simp)⟩,
    (C10_getFamilyTree_error_conditions
      [⟨1, "M", none, none, none, 0, 0⟩, ⟨2, "D", none, none, none, 0, 0⟩]
      [⟨1, 1, 2, 0⟩]).2 (by decide)⟩

/-! ### C2: the assembler on a cycle reachable from a root -/

/-- Person R, a root reaching the 3-cycle A→B→C→A. -/
def baseR : Person := ⟨1, "R", none, none, none, 0, 0⟩

/-- Person A, on the 3-cycle. -/
def baseA : Person := ⟨2, "A", none, none, none, 0, 0⟩

/-- Person B, on the 3-cycle. -/
def baseB : Person := ⟨3, "B", none, none, none, 0, 0⟩

/-- Person C, on the 3-cycle. -/
def baseC : Person := ⟨4, "C", none, none, none, 0, 0⟩

/-- Four people R, A, B, C. -/
def cyclicPeople : List Person := [baseR, baseA, baseB, baseC]

/-- Edges R→A, A→B, B→C, C→A: a 3-cycle reachable from the root R.  The
validator accepts each of these edges in this order (no self pair, no
duplicate, no immediate reversal), so this dataset state is reachable. -/
def cyclicRels : List Relationship :=
  [⟨1, 1, 2, 0⟩, ⟨2, 2, 3, 0⟩, ⟨3, 3, 4, 0⟩, ⟨4, 4, 2, 0⟩]

/-- The resolved entry of R: no parents, child A. -/
def entryR : PersonWithRelationships :=
  ⟨1, "R", none, none, none, 0, 0, [], [baseA]⟩

/-- The resolved entry of A: parents R and C, child B. -/
def entryA : PersonWithRelationships :=
  ⟨2, "A", none, none, none, 0, 0, [baseR, baseC], [baseB]⟩

/-- The resolved entry of B: parent A, child C. -/
def entryB : PersonWithRelationships :=
  ⟨3, "B", none, none, none, 0, 0, [baseA], [baseC]⟩

/-- The resolved entry of C: parent B, child A. -/
def entryC : PersonWithRelationships :=
  ⟨4, "C", none, none, none, 0, 0, [baseB], [baseA]⟩

/-- The flat annotated list `getFamilyTree` hands the client for the
cyclic dataset. -/
def cyclicForestInput : List PersonWithRelationships :=
  [entryR, entryA, entryB, entryC]

lemma buildTree_cycle_none : ∀ n l,
    buildTree n cyclicForestInput entryA l = none
    ∧ buildTree n cyclicForestInput entryB l = none
    ∧ buildTree n cyclicForestInput entryC l = none := by
  intro n
  induction n with
  | zero => intro l; exact ⟨rfl, rfl, rfl⟩
  | succ n ih =>
    intro l
    refine ⟨?_, ?_, ?_⟩
    · have hB := (ih (l + 1)).2.1
      simp only [cyclicForestInput, entryR, entryA, entryB, entryC, baseR,
        baseA, baseB, baseC] at hB
      simp [buildTree, buildChildrenAux, cyclicForestInput, entryR, entryA,
        entryB, entryC, baseR, baseA, baseB, baseC, List.find?, hB]
    · have hC := (ih (l + 1)).2.2
      simp only [cyclicForestInput, entryR, entryA, entryB, entryC, baseR,
        baseA, baseB, baseC] at hC
      simp [buildTree, buildChildrenAux, cyclicForestInput, entryR, entryA,
        entryB, entryC, baseR, baseA, baseB, baseC, List.find?, hC]
    · have hA := (ih (l + 1)).1
      simp only [cyclicForestInput, entryR, entryA, entryB, entryC, baseR,
        baseA, baseB, baseC] at hA
      simp [buildTree, buildChildrenAux, cyclicForestInput, entryR, entryA,
        entryB, entryC, baseR, baseA, baseB, baseC, List.find?, hA]

lemma buildTree_root_none : ∀ n l,
    buildTree n cyclicForestInput entryR l = none := by
  intro n
  cases n with
  | zero => intro l; rfl
  | succ n =>
    intro l
    have hA := (buildTree_cycle_none n (l + 1)).1
    simp only [cyclicForestInput, entryR, entryA, entryB, entryC, baseR,
      baseA, baseB, baseC] at hA
    simp [buildTree, buildChildrenAux, cyclicForestInput, entryR, entryA,
      entryB, entryC, baseR, baseA, baseB, baseC, List.find?, hA]

/-- C2 refuted: `buildTree` has no guard against revisiting a person on
the current root-to-node path.  On the dataset R→A→B→C→A (a cycle
reachable from the root R, which the validator does not reject), no
finite recursion-depth budget suffices for the assembler: the unbounded
JS recursion never terminates instead of truncating the cyclic branch. -/
theorem C2_assembler_unbounded_on_cycle :
    getFamilyTree cyclicPeople cyclicRels = .ok cyclicForestInput
    ∧ ∀ fuel, treeStructure fuel cyclicForestInput = none := by
  constructor
  · rfl
  · intro fuel
    have hR := buildTree_root_none fuel 0
    simp only [cyclicForestInput, entryR, entryA, entryB, entryC, baseR,
      baseA, baseB, baseC] at hR
    simp [treeStructure, rootPeople, optionMap, cyclicForestInput, entryR,
      entryA, entryB, entryC, baseR, baseA, baseB, baseC, hR]

/-! ### C3: structure of the assembled forest on acyclic input -/

lemma occurs_child_of_occurs {t' t root : TreeNode}
    (h : Occurs t root) : t' ∈ t.children → Occurs t' root := by
  induction h with
  | here => intro hc; exact Occurs.child _ _ _ hc (Occurs.here _)
  | child c u hmem _ ih => intro hc; exact Occurs.child _ c u hmem (ih hc)

/-- The invariant every node of a tree built from the annotated data
satisfies: its person is the entry of a real person, and for every edge
out of that person there is a child node with the target's id. -/
def NodeOK (people : List Person) (rels : List Relationship) (t : TreeNode) : Prop :=
  ∃ p ∈ people, t.person = entryOf people rels p
    ∧ ∀ r ∈ rels, r.parent_id = p.id → ∃ t' ∈ t.children, t'.person.id = r.child_id

lemma find?_map_id_eq (f : Person → PersonWithRelationships)
    (hid : ∀ p, (f p).id = p.id) (l : List Person) (x : Nat) :
    (l.map f).find? (fun e => e.id == x) = (l.find? (fun p => p.id == x)).map f := by
  induction l with
  | nil => rfl
  | cons a rest ih =>
    cases h : (a.id == x) with
    | true => simp [List.find?_cons, hid, h]
    | false => simp [List.find?_cons, hid, h, ih]

lemma dataFind?_entryOf {people : List Person} (rels : List Relationship)
    (hnd : (people.map Person.id).Nodup) {c : Person} (hc : c ∈ people) :
    (people.map (entryOf people rels)).find? (fun e => e.id == c.id) =
      some (entryOf people rels c) := by
  rw [find?_map_id_eq (entryOf people rels) (fun p => rfl)]
  rw [(personFind?_eq_some_iff hnd c.id c).mpr ⟨hc, rfl⟩]
  rfl

lemma buildChildrenAux_some {f : PersonWithRelationships → Option TreeNode}
    {data : List PersonWithRelationships} (Q : TreeNode → Prop) :
    ∀ {cs : List Person},
      (∀ c ∈ cs, ∃ q, data.find? (fun p => p.id == c.id) = some q
        ∧ ∃ t, f q = some t ∧ t.person.id = c.id ∧ Q t) →
      ∃ ts, buildChildrenAux f data cs = some ts
        ∧ (∀ t ∈ ts, Q t)
        ∧ ∀ c ∈ cs, ∃ t ∈ ts, t.person.id = c.id := by
  intro cs
  induction cs with
  | nil =>
    intro _
    exact ⟨[], rfl, by simp, by simp⟩
  | cons c rest ih =>
    intro h
    rcases h c (List.mem_cons_self c rest) with ⟨q, hq, t, hft, htid, hQt⟩
    rcases ih (fun c' hc' => h c' (List.mem_cons_of_mem c hc')) with
      ⟨ts, hts, hQ, hcover⟩
    refine ⟨t :: ts, ?_, ?_, ?_⟩
    · simp [buildChildrenAux, hq, hft, hts]
    · intro t' ht'
      rcases List.mem_cons.mp ht' with rfl | h'
      · exact hQt
      · exact hQ _ h'
    · intro c' hc'
      rcases List.mem_cons.mp hc' with rfl | h'
      · exact ⟨t, List.mem_cons_self t ts, htid⟩
      · rcases hcover c' h' with ⟨t', ht', htid'⟩
        exact ⟨t', List.mem_cons_of_mem t ht', htid'⟩

lemma optionMap_map (f : β → Option γ) (g : α → β) (l : List α) :
    optionMap f (l.map g) = optionMap (fun a => f (g a)) l := by
  induction l with
  | nil => rfl
  | cons a rest ih =>
    cases hfa : f (g a) with
    | none => simp [optionMap, hfa]
    | some b => simp [optionMap, hfa, ih]

lemma optionMap_forall_some {f : α → Option TreeNode} {l : List α}
    (k : α → Nat) (Q : TreeNode → Prop)
    (h : ∀ a ∈ l, ∃ b, f a = some b ∧ b.person.id = k a ∧ Q b) :
    ∃ bs, optionMap f l = some bs
      ∧ bs.map (fun b => b.person.id) = l.map k
      ∧ ∀ b ∈ bs, Q b := by
  induction l with
  | nil => exact ⟨[], rfl, rfl, by simp⟩
  | cons a rest ih =>
    rcases h a (List.mem_cons_self a rest) with ⟨b, hfa, hid, hQb⟩
    rcases ih (fun a' ha' => h a' (List.mem_cons_of_mem a ha')) with
      ⟨bs, hbs, hmap, hQ⟩
    refine ⟨b :: bs, by simp [optionMap, hfa, hbs], by simp [hid, hmap], ?_⟩
    intro b' hb'
    rcases List.mem_cons.mp hb' with rfl | h'
    · exact hQb
    · exact hQ _ h'

lemma buildTree_entryOf_some (people : List Person) (rels : List Relationship)
    (hnd : (people.map Person.id).Nodup)
    (hint : ∀ r ∈ rels,
      (∃ p ∈ people, p.id = r.parent_id) ∧ (∃ p ∈ people, p.id = r.child_id))
    (rank : Nat → Nat)
    (hrank : ∀ r ∈ rels, rank r.child_id < rank r.parent_id) :
    ∀ n, ∀ p ∈ people, rank p.id < n → ∀ lvl,
      ∃ t, buildTree n (people.map (entryOf people rels))
          (entryOf people rels p) lvl = some t
        ∧ t.person = entryOf people rels p
        ∧ ∀ s, Occurs s t → NodeOK people rels s := by
  intro n
  induction n with
  | zero =>
    intro p _ hlt _
    exact absurd hlt (Nat.not_lt_zero _)
  | succ n ih =>
    intro p hp hlt lvl
    have hchildren : ∀ c ∈ (entryOf people rels p).children,
        ∃ q, (people.map (entryOf people rels)).find? (fun e => e.id == c.id) = some q
          ∧ ∃ t, buildTree n (people.map (entryOf people rels)) q (lvl + 1) = some t
            ∧ t.person.id = c.id
            ∧ ∀ s, Occurs s t → NodeOK people rels s := by
      intro c hc
      rcases (mem_resolvedChildren_iff hnd rels p.id c).mp hc with
        ⟨hcp, r, hr, hrp, hrc⟩
      have hfind := dataFind?_entryOf rels hnd hcp
      have hrankc : rank c.id < n := by
        have h1 := hrank r hr
        rw [hrp] at h1
        rw [hrc] at h1
        omega
      rcases ih c hcp hrankc (lvl + 1) with ⟨t, hbt, htp, hQ⟩
      exact ⟨entryOf people rels c, hfind, t, hbt, by rw [htp]; rfl, hQ⟩
    rcases buildChildrenAux_some
        (fun t' => ∀ s, Occurs s t' → NodeOK people rels s) hchildren with
      ⟨ts, hts, hQall, hcover⟩
    refine ⟨TreeNode.mk (entryOf people rels p) ts lvl, ?_, rfl, ?_⟩
    · simp only [buildTree, hts]
    · intro s hs
      cases hs with
      | here =>
        refine ⟨p, hp, rfl, ?_⟩
        intro r hr hrpid
        rcases (hint r hr).2 with ⟨c, hcp, hcid⟩
        have hcmem : c ∈ (entryOf people rels p).children :=
          (mem_resolvedChildren_iff hnd rels p.id c).mpr
            ⟨hcp, r, hr, hrpid, hcid.symm⟩
        rcases hcover c hcmem with ⟨t', ht', htid⟩
        refine ⟨t', ?_, by rw [htid, hcid]⟩
        simpa [TreeNode.children] using ht'
      | child c u hmem hoc =>
        have hcmem : c ∈ ts := by simpa [TreeNode.children] using hmem
        exact hQall c hcmem s hoc

lemma rootPeople_data_eq (people : List Person) (rels : List Relationship)
    (hint : ∀ r ∈ rels,
      (∃ p ∈ people, p.id = r.parent_id) ∧ (∃ p ∈ people, p.id = r.child_id)) :
    rootPeople (people.map (entryOf people rels)) =
      (people.filter (fun p => rels.all (fun r => !(r.child_id == p.id)))).map
        (entryOf people rels) := by
  unfold rootPeople
  rw [List.filter_map]
  congr 1
  apply List.filter_congr
  intro p _
  have hlen : (entryOf people rels p).parents.length =
      (rels.filter (fun r => r.child_id == p.id)).length :=
    filterMap_length_of_isSome (fun r hr =>
      (personFind?_isSome_iff _ _).mpr ((hint r (List.mem_of_mem_filter hr)).1))
  rw [Bool.eq_iff_iff]
  simp only [Function.comp_apply, beq_iff_eq, hlen, List.length_eq_zero,
    List.filter_eq_nil_iff, List.all_eq_true, Bool.not_eq_true',
    beq_eq_false_iff_ne, ne_eq]

lemma appears_in_forest (people : List Person) (rels : List Relationship)
    (forest : List TreeNode) (rank : Nat → Nat) (fuel : Nat)
    (hint : ∀ r ∈ rels,
      (∃ p ∈ people, p.id = r.parent_id) ∧ (∃ p ∈ people, p.id = r.child_id))
    (hrank : ∀ r ∈ rels, rank r.child_id < rank r.parent_id)
    (hfuel : ∀ p ∈ people, rank p.id < fuel)
    (hroots : ∀ p ∈ people, (∀ r ∈ rels, r.child_id ≠ p.id) →
      ∃ t, OccursForest t forest ∧ t.person.id = p.id)
    (hstep : ∀ t, OccursForest t forest → ∀ r ∈ rels, r.parent_id = t.person.id →
      ∃ t', OccursForest t' forest ∧ t'.person.id = r.child_id) :
    ∀ p ∈ people, ∃ t, OccursForest t forest ∧ t.person.id = p.id := by
  have main : ∀ k, ∀ p ∈ people, fuel - rank p.id ≤ k →
      ∃ t, OccursForest t forest ∧ t.person.id = p.id := by
    intro k
    induction k with
    | zero =>
      intro p hp hle
      exact absurd hle (by have := hfuel p hp; omega)
    | succ k ih =>
      intro p hp hle
      by_cases hroot : ∀ r ∈ rels, r.child_id ≠ p.id
      · exact hroots p hp hroot
      · push_neg at hroot
        rcases hroot with ⟨r, hr, hrc⟩
        rcases (hint r hr).1 with ⟨q, hq, hqid⟩
        have h1 : rank p.id < rank q.id := by
          have h2 := hrank r hr
          rw [hrc, ← hqid] at h2
          exact h2
        have h2 : fuel - rank q.id ≤ k := by
          have := hfuel q hq
          omega
        rcases ih q hq h2 with ⟨t, htf, htid⟩
        rcases hstep t htf r hr (by rw [htid, hqid]) with ⟨t', ht'f, ht'id⟩
        exact ⟨t', ht'f, by rw [ht'id, hrc]⟩
  intro p hp
  exact main (fuel - rank p.id) p hp le_rfl

/-- C3: on an acyclic dataset (witnessed by a rank function decreasing
along every parent→child edge, with the depth budget above every rank),
the assembler's forest lists every person with no incoming edge exactly
once as a root; under every occurrence of a node and for every edge out
of that node's person, a child node with the target's id is present (a
multi-parent person is re-built under each branch, not deduplicated);
and every person occurs somewhere in the forest.  The data handed to the
assembler is exactly the value `getFamilyTree` returns. -/
theorem C3_assembler_forest_structure
    (people : List Person) (rels : List Relationship)
    (hnd : (people.map Person.id).Nodup)
    (hint : ∀ r ∈ rels,
      (∃ p ∈ people, p.id = r.parent_id) ∧ (∃ p ∈ people, p.id = r.child_id))
    (rank : Nat → Nat)
    (hrank : ∀ r ∈ rels, rank r.child_id < rank r.parent_id)
    (fuel : Nat) (hfuel : ∀ p ∈ people, rank p.id < fuel) :
    getFamilyTree people rels = .ok (people.map (entryOf people rels))
    ∧ ∃ forest,
      treeStructure fuel (people.map (entryOf people rels)) = some forest
      ∧ forest.map (fun t => t.person.id) =
          (people.filter (fun p => rels.all (fun r => !(r.child_id == p.id)))).map
            Person.id
      ∧ (forest.map (fun t => t.person.id)).Nodup
      ∧ (∀ t, OccursForest t forest → ∀ r ∈ rels, r.parent_id = t.person.id →
          ∃ t' ∈ t.children, t'.person.id = r.child_id)
      ∧ ∀ p ∈ people, ∃ t, OccursForest t forest ∧ t.person.id = p.id := by
  refine ⟨getFamilyTree_ok people rels hint, ?_⟩
  by_cases hempty : people = []
  · subst hempty
    refine ⟨[], by simp [treeStructure], by simp, by simp, ?_, by simp⟩
    rintro t ⟨b, hb, _⟩ _ _
    cases hb
  · have hne : ((people.map (entryOf people rels)).length == 0) = false := by
      simp [List.length_eq_zero, hempty]
    have hforall : ∀ a ∈ people.filter
          (fun p => rels.all (fun r => !(r.child_id == p.id))),
        ∃ b, buildTree fuel (people.map (entryOf people rels))
            (entryOf people rels a) 0 = some b
          ∧ b.person.id = a.id
          ∧ ∀ s, Occurs s b → NodeOK people rels s := by
      intro a ha
      have hap : a ∈ people := List.mem_of_mem_filter ha
      rcases buildTree_entryOf_some people rels hnd hint rank hrank fuel a hap
          (hfuel a hap) 0 with ⟨b, hb, hbp, hQ⟩
      exact ⟨b, hb, by rw [hbp]; rfl, hQ⟩
    rcases optionMap_forall_some Person.id
        (fun b => ∀ s, Occurs s b → NodeOK people rels s) hforall with
      ⟨forest, hOM, hmap, hQall⟩
    have hlocal : ∀ t, OccursForest t forest →
        ∀ r ∈ rels, r.parent_id = t.person.id →
        ∃ t' ∈ t.children, t'.person.id = r.child_id := by
      rintro t ⟨b, hb, hocc⟩ r hr hrpid
      rcases hQall b hb t hocc with ⟨p', hp', hperson, hcomp⟩
      have : r.parent_id = p'.id := by
        rw [hrpid, hperson]
        rfl
      exact hcomp r hr this
    refine ⟨forest, ?_, hmap, ?_, hlocal, ?_⟩
    · unfold treeStructure
      rw [if_neg (by simp [hne, List.length_eq_zero, hempty])]
      rw [rootPeople_data_eq people rels hint, optionMap_map]
      exact hOM
    · rw [hmap]
      exact List.Nodup.sublist
        (List.Sublist.map Person.id (List.filter_sublist people)) hnd
    · apply appears_in_forest people rels forest rank fuel hint hrank hfuel
      · intro p hp hnoinc
        have hproot : p ∈ people.filter
            (fun p2 => rels.all (fun r => !(r.child_id == p2.id))) := by
          refine List.mem_filter.mpr ⟨hp, ?_⟩
          simp only [List.all_eq_true, Bool.not_eq_true', beq_eq_false_iff_ne, ne_eq]
          exact fun r hr => hnoinc r hr
        have hidmem : p.id ∈ forest.map (fun t => t.person.id) := by
          rw [hmap]
          exact List.mem_map_of_mem Person.id hproot
        rcases List.mem_map.mp hidmem with ⟨b, hb, hbid⟩
        exact ⟨b, ⟨b, hb, Occurs.here b⟩, hbid⟩
      · rintro t htf r hr hrpid
        rcases hlocal t htf r hr hrpid with ⟨t', ht', htid⟩
        rcases htf with ⟨b, hb, hocc⟩
        exact ⟨t', ⟨b, hb, occurs_child_of_occurs hocc ht'⟩, htid⟩

/-- C3 witness: the acyclic dataset M (id 1) → D (id 2) with rank 1 for
M and 0 otherwise and depth budget 2: the assembler succeeds and its
forest satisfies all the stated structural guarantees. -/
theorem C3_witness :
    getFamilyTree
        [⟨1, "M", none, none, none, 0, 0⟩, ⟨2, "D", none, none, none, 0, 0⟩]
        [⟨1, 1, 2, 0⟩] =
      .ok ([⟨1, "M", none, none, none, 0, 0⟩,
        (⟨2, "D", none, none, none, 0, 0⟩ : Person)].map
        (entryOf
          [⟨1, "M", none, none, none, 0, 0⟩, ⟨2, "D", none, none, none, 0, 0⟩]
          [⟨1, 1, 2, 0⟩]))
    ∧ ∃ forest,
      treeStructure 2
          ([⟨1, "M", none, none, none, 0, 0⟩,
            (⟨2, "D", none, none, none, 0, 0⟩ : Person)].map
            (entryOf
              [⟨1, "M", none, none, none, 0, 0⟩, ⟨2, "D", none, none, none, 0, 0⟩]
              [⟨1, 1, 2, 0⟩])) = some forest
      ∧ forest.map (fun t => t.person.id) =
          ([⟨1, "M", none, none, none, 0, 0⟩,
            (⟨2, "D", none, none, none, 0, 0⟩ : Person)].filter
            (fun p => [(⟨1, 1, 2, 0⟩ : Relationship)].all
              (fun r => !(r.child_id == p.id)))).map Person.id
      ∧ (forest.map (fun t => t.person.id)).Nodup
      ∧ (∀ t, OccursForest t forest →
          ∀ r ∈ [(⟨1, 1, 2, 0⟩ : Relationship)], r.parent_id = t.person.id →
          ∃ t' ∈ t.children, t'.person.id = r.child_id)
      ∧ ∀ p ∈ [⟨1, "M", none, none, none, 0, 0⟩,
          (⟨2, "D", none, none, none, 0, 0⟩ : Person)],
          ∃ t, OccursForest t forest ∧ t.person.id = p.id :=
  C3_assembler_forest_structure
    [⟨1, "M", none, none, none, 0, 0⟩, ⟨2, "D", none, none, none, 0, 0⟩]
    [⟨1, 1, 2, 0⟩] (by decide) (by decide)
    (fun id => if id == 1 then 1 else 0) (by decide) 2 (by decide)

end FamilyTree
